import Mathlib

/-!
Verification of the IEXInsiderMCP scripts (analyze_details.py, analyze_excel.py,
convert_to_csv.py) against their specification.  The scripts load a spreadsheet
sheet into a pandas DataFrame, strip whitespace from column labels, print
summary statistics (value_counts, describe, isnull().sum(), per-group samples)
and export the table to CSV.  The embedding below models a DataFrame as a
Table of labelled columns over nullable cells, and each pandas operation the
scripts invoke as an explicit Lean function.
-/

namespace IEX

/-- Whitespace test used by str.strip in pandas; a label is a list of
characters so stripping is explicit list surgery. -/
def isWS (c : Char) : Bool := c.isWhitespace

/-- Embedding of df.columns.str.strip() applied to one label
(src/analyze_details.py line 7, src/convert_to_csv.py line 8): remove leading
and trailing whitespace, keep interior characters unchanged. -/
def stripL (l : List Char) : List Char :=
  (l.dropWhile isWS).rdropWhile isWS

/-- A cell of the table: missing (NaN), text, or numeric.  Numbers are exact
rationals; the scripts only move them around and aggregate them. -/
inductive Cell where
  | na : Cell
  | str : List Char → Cell
  | num : ℚ → Cell
deriving DecidableEq, Repr

/-- Embedding of pandas elementwise equality ==, under which NaN compares
unequal to everything, itself included. -/
def cellEq : Cell → Cell → Bool
  | Cell.na, _ => false
  | _, Cell.na => false
  | Cell.str a, Cell.str b => a == b
  | Cell.num a, Cell.num b => a == b
  | _, _ => false

/-- The in-memory table a script materializes from one sheet: ordered column
labels and rows of cells aligned by position. -/
structure Table where
  labels : List (List Char)
  rows : List (List Cell)
deriving DecidableEq, Repr

/-- Embedding of df.columns = df.columns.str.strip() (the ColumnNormalizer of
the spec): strips every column label, leaves every cell untouched. -/
def normalizeTable (t : Table) : Table :=
  { labels := t.labels.map stripL, rows := t.rows }

/-- Column extraction by position: one cell per row, missing cells read as
NaN.  The scripts access columns by label; the label has been resolved to a
position here. -/
def colAt (t : Table) (j : Nat) : List Cell :=
  t.rows.map (fun r => r.getD j Cell.na)

/-- Embedding of df[...].isnull().sum() for one column
(src/analyze_details.py line 31): the number of missing values. -/
def nullCount (c : List Cell) : Nat :=
  c.countP (fun x => x == Cell.na)

/-- Embedding of the non-null count that describe() reports
(src/analyze_details.py lines 35 and 38): the number of present values. -/
def nonNullCount (c : List Cell) : Nat :=
  c.countP (fun x => !(x == Cell.na))

/-- Distinct values of a column in first-seen order, the order in which a
hash table enumerates them; embedding of df['TYPE'].unique()
(src/analyze_details.py line 18).  NaN is kept, as pandas unique keeps it. -/
def uniqueAux : List Cell → List Cell → List Cell
  | _, [] => []
  | seen, x :: xs =>
      if seen.contains x then uniqueAux seen xs
      else x :: uniqueAux (x :: seen) xs

/-- Distinct values in first-seen order (no values already seen). -/
def uniqueFirstSeen (l : List Cell) : List Cell := uniqueAux [] l

/-- Occurrence counts of the distinct non-null values, in first-seen order. -/
def withCounts (xs : List Cell) : List (Cell × Nat) :=
  (uniqueFirstSeen xs).map (fun v => (v, xs.countP (fun y => y == v)))

/-- Stable descending insertion by count: an incoming entry is placed before
the first entry with a smaller-or-equal count, so earlier entries with the
same count stay in front. -/
def insertDesc (p : Cell × Nat) : List (Cell × Nat) → List (Cell × Nat)
  | [] => [p]
  | q :: qs => if q.2 ≤ p.2 then p :: q :: qs else q :: insertDesc p qs

/-- Stable sort by descending count. -/
def sortDesc (l : List (Cell × Nat)) : List (Cell × Nat) :=
  l.foldr insertDesc []

/-- Embedding of df['TYPE'].value_counts() (src/analyze_details.py line 14):
drop NaN, count each distinct value, and list the counts in descending
order, ties kept in first-seen order by sort stability. -/
def value_counts (xs : List Cell) : List (Cell × Nat) :=
  sortDesc (withCounts (xs.filter (fun x => !(x == Cell.na))))

/-- Rows whose grouping-column cell compares equal (pandas ==, so never for
NaN) to the group value; embedding of df[df['TYPE'] == type_val]
(src/analyze_details.py line 20). -/
def matchingRows (t : Table) (j : Nat) (g : Cell) : List (List Cell) :=
  t.rows.filter (fun r => cellEq (r.getD j Cell.na) g)

/-- Embedding of df[df['TYPE'] == type_val].head(10)
(src/analyze_details.py line 20): the first at most ten matching rows in
original order. -/
def groupSample (t : Table) (j : Nat) (g : Cell) : List (List Cell) :=
  (matchingRows t j g).take 10

/-- Numeric non-null values of a column: the data df.describe() aggregates
(src/analyze_details.py lines 35 and 38). -/
def numsOf (c : List Cell) : List ℚ :=
  c.filterMap (fun x => match x with | Cell.num q => some q | _ => none)

/-- Sum of a list of rationals. -/
def qsum (l : List ℚ) : ℚ := l.foldr (fun a b => a + b) 0

/-- Arithmetic mean reported by describe(); undefined on an empty column. -/
def meanQ (l : List ℚ) : Option ℚ :=
  if l.length = 0 then none else some (qsum l / (l.length : ℚ))

/-- Sample variance with denominator N - 1 as describe() uses; none models
the NaN that pandas reports when fewer than two values are present.  The
standard deviation describe() prints is its square root. -/
def sampleVar (l : List ℚ) : Option ℚ :=
  if l.length < 2 then none
  else
    some (qsum (l.map (fun x => (x - qsum l / (l.length : ℚ)) ^ 2)) /
      ((l.length : ℚ) - 1))

/-- Ascending insertion for the order statistics. -/
def insertAsc (a : ℚ) : List ℚ → List ℚ
  | [] => [a]
  | b :: bs => if a ≤ b then a :: b :: bs else b :: insertAsc a bs

/-- Ascending sort of the numeric values. -/
def sortAsc (l : List ℚ) : List ℚ := l.foldr insertAsc []

/-- Quantile by linear interpolation between order statistics, the scheme
describe() uses for the 25th/50th/75th percentiles: position
q * (N - 1) in the sorted values, interpolating between the two neighbouring
order statistics. -/
def quantileQ (q : ℚ) (l : List ℚ) : Option ℚ :=
  if l.length = 0 then none
  else
    some ((sortAsc l).getD (q * ((l.length : ℚ) - 1)).floor.toNat 0 +
      (q * ((l.length : ℚ) - 1) - ((q * ((l.length : ℚ) - 1)).floor : ℚ)) *
        ((sortAsc l).getD ((q * ((l.length : ℚ) - 1)).floor.toNat + 1)
            ((sortAsc l).getD (q * ((l.length : ℚ) - 1)).floor.toNat 0) -
          (sortAsc l).getD (q * ((l.length : ℚ) - 1)).floor.toNat 0))

/-- Minimum reported by describe(): the head of the sorted values. -/
def minQ (l : List ℚ) : Option ℚ := (sortAsc l).head?

/-- Maximum reported by describe(): the last of the sorted values. -/
def maxQ (l : List ℚ) : Option ℚ := (sortAsc l).getLast?

/-- The numeric column of the spec's concrete describe() test. -/
def exampleNumCol : List Cell :=
  [Cell.num 1, Cell.num 2, Cell.num 3, Cell.num 4, Cell.num 5]

/-- Load failures of the spec's taxonomy that TableLoader can raise. -/
inductive LoadError where
  | notFound : LoadError
  | sheetNotFound : LoadError
deriving DecidableEq, Repr

/-- Embedding of pd.read_excel(..., sheet_name='MCP Details') sheet selection
(src/analyze_details.py line 4, src/convert_to_csv.py line 6): the workbook's
sheet index is consulted by exact, case-sensitive name equality; a miss
aborts the whole load with an error carrying no table. -/
def loadSheet (wb : List (List Char × Table)) (name : List Char) :
    Except LoadError Table :=
  match wb.find? (fun p => p.1 == name) with
  | some p => Except.ok p.2
  | none => Except.error LoadError.sheetNotFound

/-- A workbook holding a single sheet whose name differs from the requested
one only by letter case. -/
def lowercaseWorkbook : List (List Char × Table) :=
  [("mcp details".data, { labels := [], rows := [] })]

/-- Characters that force minimal quoting in to_csv output: the delimiter,
the quote character and the line breaks. -/
def specials : List Char := [',', '"', '\n', '\r']

/-- Does a field need quoting under minimal quoting? -/
def needsQuote (f : List Char) : Bool := f.any (fun c => specials.contains c)

/-- Minimal quoting as the csv QUOTE_MINIMAL default used by df.to_csv: a
field holding a delimiter, quote or line break is wrapped in quotes with the
inner quotes doubled; every other field is written verbatim. -/
def quoteField (f : List Char) : List Char :=
  if needsQuote f then
    '"' :: (f.flatMap (fun c => if c == '"' then ['"', '"'] else [c]) ++ ['"'])
  else f

/-- Text written for one cell: NaN as the empty field (the to_csv default),
text verbatim, numbers in their decimal/rational rendering. -/
def renderCell : Cell → List Char
  | Cell.na => []
  | Cell.str s => s
  | Cell.num q => (toString q).data

/-- One output line: the fields, minimally quoted, joined by commas. -/
def csvLine (fields : List (List Char)) : List Char :=
  List.intercalate [','] (fields.map quoteField)

/-- Embedding of df.to_csv(csv_file, index=False) (src/convert_to_csv.py
line 12): the header line of the column labels, then one line per row in
order, comma-separated, each line terminated by a newline; no positional
index column is emitted. -/
def exportCsv (t : Table) : List Char :=
  ((csvLine t.labels :: t.rows.map (fun r => csvLine (r.map renderCell))).map
      (fun l => l ++ ['\n'])).flatten

/-- Drops the empty line that the terminating newline of the last written
line would otherwise contribute. -/
def stripTrailingEmpty (ls : List (List Char)) : List (List Char) :=
  if ls.getLast? == some ([] : List Char) then ls.dropLast else ls

/-- Modelled from the spec: the repository has no reader for its export
artifact (its TableLoader reads only spreadsheet workbooks), yet the spec's
§4.4 post-condition reloads the artifact through TableLoader; this reader
follows the spec's description of the artifact — the first line holds the
ordered column labels, each further line one row, fields separated by the
comma delimiter. -/
def parseCsv (file : List Char) : List (List Char) × List (List (List Char)) :=
  (((stripTrailingEmpty (file.splitOn '\n')).headD []).splitOn ',',
    ((stripTrailingEmpty (file.splitOn '\n')).tail).map (fun r => r.splitOn ','))

/-- Write failure of the spec's taxonomy raised by TableExporter. -/
inductive WriteFailure where
  | writeError : WriteFailure
deriving DecidableEq, Repr

/-- Destination of an export: parent directory and file name. -/
structure FSPath where
  dir : List Char
  file : List Char
deriving DecidableEq, Repr

/-- Embedding of df.to_csv(csv_file, index=False) as a transformer of a tiny
file-system state (existing directories, then a file store): Python's open
of the destination raises before any file is created when the parent
directory is missing, so the store comes back unchanged beside the failure;
otherwise the whole artifact is installed in one step. -/
def exportTo (dirs : List (List Char)) (fs : List (FSPath × List Char))
    (p : FSPath) (t : Table) :
    List (FSPath × List Char) × Option WriteFailure :=
  if dirs.any (fun d => d == p.dir) then
    ((p, exportCsv t) :: fs.filter (fun e => !(e.1 == p)), none)
  else (fs, some WriteFailure.writeError)

/-- Embedding of src/analyze_details.py lines 4-9: the loaded table has its
column labels stripped before every downstream access. -/
def detailsTable (t : Table) : Table := normalizeTable t

/-- Embedding of src/convert_to_csv.py lines 6-12: the loaded table has its
column labels stripped before it is exported. -/
def convertTable (t : Table) : Table := normalizeTable t

/-- Embedding of src/analyze_excel.py lines 10-29: the sheet loop prints
list(df.columns), dtypes, head, nunique and describe directly on the loaded
table; no column normalization is applied anywhere in this script. -/
def excelTable (t : Table) : Table := t

/-- A table whose single column label carries leading whitespace. -/
def paddedTable : Table := { labels := [[' ', 'X']], rows := [] }

/-- A small concrete normalized table used to instantiate the export
theorems. -/
def witTable : Table :=
  { labels := [['X'], ['Y']],
    rows := [[Cell.str ['a'], Cell.na], [Cell.str ['b'], Cell.str ['c']]] }

end IEX

namespace IEX

theorem stripL_idem (l : List Char) : stripL (stripL l) = stripL l := by
  unfold stripL
  rcases h : List.dropWhile isWS l with _ | ⟨a, A⟩
  · simp
  · have hne : List.dropWhile isWS l ≠ [] := by simp [h]
    have ha : ¬ isWS a = true := by
      have hh := List.head_dropWhile_not isWS l hne
      simpa [h] using hh
    obtain ⟨t, ht⟩ := List.rdropWhile_prefix isWS (a :: A)
    rcases hB : List.rdropWhile isWS (a :: A) with _ | ⟨b, B⟩
    · simp
    · have hba : b = a := by
        rw [hB] at ht
        simpa using congrArg (fun l => l.head?) ht
      subst hba
      have hdw : List.dropWhile isWS (b :: B) = b :: B := by
        simp [List.dropWhile_cons, ha]
      rw [hdw, ← hB, List.rdropWhile_idempotent]

/-- C2: ColumnNormalizer is idempotent — normalizing an already-normalized
Table yields an identical Table — and it changes only the column labels
(stripping leading/trailing whitespace), never the cell values. -/
theorem columnNormalizer_idempotent (t : Table) :
    normalizeTable (normalizeTable t) = normalizeTable t ∧
    (normalizeTable t).rows = t.rows ∧
    (normalizeTable t).labels = t.labels.map stripL := by
  refine ⟨?_, rfl, rfl⟩
  unfold normalizeTable
  simp [Function.comp, stripL_idem]

theorem nullCount_add_nonNullCount (c : List Cell) :
    nullCount c + nonNullCount c = c.length := by
  induction c with
  | nil => rfl
  | cons x xs ih =>
      by_cases hx : x = Cell.na <;>
        simp [nullCount, nonNullCount, List.countP_cons, hx] at ih ⊢ <;> omega

/-- C9: for every Table and every column position, the null count plus the
non-null count of that column equals the total row count of the Table. -/
theorem null_plus_nonnull_eq_rows (t : Table) (j : Nat) :
    nullCount (colAt t j) + nonNullCount (colAt t j) = t.rows.length := by
  have h := nullCount_add_nonNullCount (colAt t j)
  simpa [colAt] using h

theorem mem_uniqueAux (x : Cell) (l seen : List Cell) :
    x ∈ uniqueAux seen l ↔ x ∈ l ∧ x ∉ seen := by
  induction l generalizing seen with
  | nil => simp [uniqueAux]
  | cons y ys ih =>
      by_cases hy : seen.contains y
      · rw [uniqueAux, if_pos hy, ih]
        have hy' : y ∈ seen := by simpa using hy
        constructor
        · rintro ⟨hx, hn⟩
          exact ⟨List.mem_cons_of_mem _ hx, hn⟩
        · rintro ⟨hx, hn⟩
          rcases List.mem_cons.mp hx with rfl | hx'
          · exact absurd hy' hn
          · exact ⟨hx', hn⟩
      · rw [uniqueAux, if_neg hy]
        have hy' : y ∉ seen := by simpa using hy
        simp only [List.mem_cons, ih]
        constructor
        · rintro (rfl | ⟨hx, hn⟩)
          · exact ⟨Or.inl rfl, hy'⟩
          · refine ⟨Or.inr hx, fun hs => hn (Or.inr hs)⟩
        · rintro ⟨rfl | hx, hn⟩
          · exact Or.inl rfl
          · by_cases hxy : x = y
            · exact Or.inl hxy
            · refine Or.inr ⟨hx, fun hs => ?_⟩
              rcases hs with h1 | h2
              · exact hxy h1
              · exact hn h2

theorem mem_uniqueFirstSeen (x : Cell) (l : List Cell) :
    x ∈ uniqueFirstSeen l ↔ x ∈ l := by
  simp [uniqueFirstSeen, mem_uniqueAux]

theorem mem_insertDesc (b p : Cell × Nat) (l : List (Cell × Nat)) :
    b ∈ insertDesc p l ↔ b = p ∨ b ∈ l := by
  induction l with
  | nil => simp [insertDesc]
  | cons q qs ih =>
      by_cases h : q.2 ≤ p.2
      · simp [insertDesc, if_pos h]
      · simp only [insertDesc, if_neg h, List.mem_cons, ih]
        tauto

theorem mem_sortDesc (b : Cell × Nat) (l : List (Cell × Nat)) :
    b ∈ sortDesc l ↔ b ∈ l := by
  induction l with
  | nil => simp [sortDesc]
  | cons q qs ih =>
      simp only [sortDesc, List.foldr_cons] at ih ⊢
      rw [mem_insertDesc, ih, List.mem_cons]

theorem pairwise_insertDesc (p : Cell × Nat) (l : List (Cell × Nat))
    (hl : l.Pairwise (fun a b => b.2 ≤ a.2)) :
    (insertDesc p l).Pairwise (fun a b => b.2 ≤ a.2) := by
  induction l with
  | nil => simp [insertDesc]
  | cons q qs ih =>
      rcases List.pairwise_cons.mp hl with ⟨hq, hqs⟩
      by_cases h : q.2 ≤ p.2
      · rw [insertDesc, if_pos h]
        refine List.pairwise_cons.mpr ⟨?_, hl⟩
        intro b hb
        rcases List.mem_cons.mp hb with rfl | hb'
        · exact h
        · exact le_trans (hq b hb') h
      · rw [insertDesc, if_neg h]
        refine List.pairwise_cons.mpr ⟨?_, ih hqs⟩
        intro b hb
        rcases (mem_insertDesc b p qs).mp hb with rfl | hb'
        · omega
        · exact hq b hb'

theorem pairwise_sortDesc (l : List (Cell × Nat)) :
    (sortDesc l).Pairwise (fun a b => b.2 ≤ a.2) := by
  induction l with
  | nil => simp [sortDesc]
  | cons q qs ih =>
      simpa [sortDesc] using pairwise_insertDesc q (sortDesc qs) ih

theorem value_counts_counts (xs : List Cell) :
    (value_counts xs).all
      (fun p => p.2 == xs.countP (fun y => y == p.1)) = true := by
  rw [List.all_eq_true]
  intro p hp
  have hmem : p ∈ withCounts (xs.filter (fun x => !(x == Cell.na))) :=
    (mem_sortDesc p _).mp hp
  obtain ⟨v, hv, rfl⟩ := List.mem_map.mp hmem
  have hvf : v ∈ xs.filter (fun x => !(x == Cell.na)) :=
    (mem_uniqueFirstSeen v _).mp hv
  have hvna : v ≠ Cell.na := by
    have := List.of_mem_filter hvf
    simpa using this
  simp only [beq_iff_eq]
  rw [List.countP_filter]
  refine List.countP_congr ?_
  intro a _
  by_cases hav : a = v
  · subst hav
    simp [hvna]
  · simp [hav]

/-- C3: the frequency table maps each reported distinct value to its
occurrence count and is ordered by descending count with ties in first-seen
order; on the value sequence A, A, B, C, A it reports exactly A three times,
then B once, then C once. -/
theorem summaryReporter_value_counts :
    value_counts
        [Cell.str ['A'], Cell.str ['A'], Cell.str ['B'], Cell.str ['C'],
          Cell.str ['A']] =
      [(Cell.str ['A'], 3), (Cell.str ['B'], 1), (Cell.str ['C'], 1)] ∧
    (∀ xs : List Cell,
      (value_counts xs).all
        (fun p => p.2 == xs.countP (fun y => y == p.1)) = true) ∧
    (∀ xs : List Cell,
      (value_counts xs).Pairwise (fun a b => b.2 ≤ a.2)) ∧
    (∀ xs : List Cell, ∀ v : Cell,
      v ∈ (value_counts xs).map Prod.fst ↔ v ∈ xs ∧ v ≠ Cell.na) := by
  refine ⟨by decide, value_counts_counts, fun xs => pairwise_sortDesc _, ?_⟩
  intro xs v
  simp only [List.mem_map]
  constructor
  · rintro ⟨p, hp, rfl⟩
    have hmem : p ∈ withCounts (xs.filter (fun x => !(x == Cell.na))) :=
      (mem_sortDesc p _).mp hp
    obtain ⟨w, hw, rfl⟩ := List.mem_map.mp hmem
    have hwf : w ∈ xs.filter (fun x => !(x == Cell.na)) :=
      (mem_uniqueFirstSeen w _).mp hw
    refine ⟨List.mem_of_mem_filter hwf, ?_⟩
    have := List.of_mem_filter hwf
    simpa using this
  · rintro ⟨hv, hvna⟩
    have hvf : v ∈ xs.filter (fun x => !(x == Cell.na)) := by
      refine List.mem_filter.mpr ⟨hv, by simpa using hvna⟩
    have hvu : v ∈ uniqueFirstSeen (xs.filter (fun x => !(x == Cell.na))) :=
      (mem_uniqueFirstSeen v _).mpr hvf
    refine ⟨(v, (xs.filter (fun x => !(x == Cell.na))).countP
        (fun y => y == v)), ?_, rfl⟩
    exact (mem_sortDesc _ _).mpr (List.mem_map.mpr ⟨v, hvu, rfl⟩)

theorem cellEq_na_right (x : Cell) : cellEq x Cell.na = false := by
  cases x <;> rfl

/-- C10: the per-group sample is a prefix of the rows matching the group
value, of length the smaller of ten and the number of matching rows, every
sampled row matches the group value, the sample for a missing (NaN) group
value is empty, and NaN is enumerated by unique() exactly when the column
holds a missing value. -/
theorem groupSample_spec (t : Table) (j : Nat) (g : Cell) :
    groupSample t j g <+: matchingRows t j g ∧
    (groupSample t j g).length = min 10 (matchingRows t j g).length ∧
    (groupSample t j g).all (fun r => cellEq (r.getD j Cell.na) g) = true ∧
    groupSample t j Cell.na = [] ∧
    (Cell.na ∈ uniqueFirstSeen (colAt t j) ↔ Cell.na ∈ colAt t j) := by
  refine ⟨ List.take_prefix 10 _, List.length_take 10 _, ?_, ?_,
    mem_uniqueFirstSeen _ _⟩
  · rw [List.all_eq_true]
    intro r hr
    have hr' : r ∈ matchingRows t j g := List.mem_of_mem_take hr
    simp only [matchingRows] at hr'
    exact (List.mem_filter.mp hr').2
  · unfold groupSample matchingRows
    have : t.rows.filter (fun r => cellEq (r.getD j Cell.na) Cell.na) = [] := by
      rw [List.filter_eq_nil_iff]
      intro r _
      simp [cellEq_na_right]
    rw [this, List.take_nil]

/-- C4: on the numeric column 1, 2, 3, 4, 5 the reported statistics are
count 5, mean 3, minimum 1, quartiles 2, 3 and 4 by linear interpolation,
maximum 5, sample variance 5/2 (denominator N - 1), the sample standard
deviation is within 1/1000 of 1.5811, and with fewer than two values the
sample deviation is undefined (NaN). -/
theorem summaryReporter_describe_numeric :
    nonNullCount exampleNumCol = 5 ∧
    meanQ (numsOf exampleNumCol) = some 3 ∧
    minQ (numsOf exampleNumCol) = some 1 ∧
    quantileQ (1 / 4) (numsOf exampleNumCol) = some 2 ∧
    quantileQ (1 / 2) (numsOf exampleNumCol) = some 3 ∧
    quantileQ (3 / 4) (numsOf exampleNumCol) = some 4 ∧
    maxQ (numsOf exampleNumCol) = some 5 ∧
    sampleVar (numsOf exampleNumCol) = some (5 / 2) ∧
    sampleVar [(3 : ℚ)] = none ∧
    |Real.sqrt (((sampleVar (numsOf exampleNumCol)).getD 0 : ℚ) : ℝ) -
        15811 / 10000| < 1 / 1000 := by
  have hnums : numsOf exampleNumCol = [1, 2, 3, 4, 5] := by rfl
  have hs : sampleVar (numsOf exampleNumCol) = some (5 / 2) := by
    rw [hnums]
    norm_num [sampleVar, qsum]
  refine ⟨by decide, ?_, ?_, ?_, ?_, ?_, ?_, hs, by norm_num [sampleVar], ?_⟩
  · rw [hnums]
    norm_num [meanQ, qsum]
  · rw [hnums]
    norm_num [minQ, sortAsc, insertAsc]
  · rw [hnums]
    norm_num [quantileQ, sortAsc, insertAsc, Rat.floor_def']
  · rw [hnums]
    norm_num [quantileQ, sortAsc, insertAsc, Rat.floor_def']
    all_goals decide
  · rw [hnums]
    norm_num [quantileQ, sortAsc, insertAsc, Rat.floor_def']
    all_goals decide
  · rw [hnums]
    norm_num [maxQ, sortAsc, insertAsc]
  rw [hs]
  have h52 : (((5 / 2 : ℚ) : ℝ)) = (5 / 2 : ℝ) := by norm_num
  show |Real.sqrt (((5 / 2 : ℚ) : ℝ)) - 15811 / 10000| < 1 / 1000
  rw [h52, abs_sub_lt_iff]
  constructor
  · have hup : Real.sqrt (5 / 2) < 15821 / 10000 := by
      rw [Real.sqrt_lt' (by norm_num)]
      norm_num
    linarith
  · have hlo : (15801 / 10000 : ℝ) < Real.sqrt (5 / 2) := by
      rw [Real.lt_sqrt (by norm_num)]
      norm_num
    linarith

/-- C5: TableLoader matches sheet names exactly and case-sensitively — a
workbook holding only a sheet named in lowercase does not satisfy a request
for the capitalized name, the whole load fails with the sheet-not-found
error carrying no table, and in general a load succeeds precisely when some
sheet name matches exactly. -/
theorem tableLoader_sheet_case_sensitive :
    loadSheet lowercaseWorkbook ("MCP Details".data) =
      Except.error LoadError.sheetNotFound ∧
    ∀ (wb : List (List Char × Table)) (name : List Char),
      (loadSheet wb name).isOk = wb.any (fun p => p.1 == name) := by
  refine ⟨by rfl, ?_⟩
  intro wb name
  induction wb with
  | nil => rfl
  | cons p ps ih =>
      by_cases h : (p.1 == name) = true
      · simp [loadSheet, List.find?_cons_of_pos _ h, List.any_cons, h,
          Except.isOk, Except.toBool]
      · have hL : loadSheet (p :: ps) name = loadSheet ps name := by
          unfold loadSheet
          rw [List.find?_cons_of_neg ps h]
        rw [hL, ih, List.any_cons]
        simp [h]

/-- C6: requesting an export to a destination whose parent directory does
not exist fails with the write error and leaves the file store — the
destination path included — exactly as it was: no zero-byte or partial
artifact is created. -/
theorem tableExporter_missing_dir (dirs : List (List Char))
    (fs : List (FSPath × List Char)) (p : FSPath) (t : Table)
    (h : dirs.all (fun d => !(d == p.dir)) = true) :
    exportTo dirs fs p t = (fs, some WriteFailure.writeError) ∧
    (exportTo dirs fs p t).1.find? (fun e => e.1 == p) =
      fs.find? (fun e => e.1 == p) := by
  have hany : dirs.any (fun d => d == p.dir) = false := by
    rw [List.any_eq_false]
    intro d hd
    have hx := (List.all_eq_true.mp h) d hd
    simpa using hx
  rw [exportTo, hany]
  simp

theorem tableExporter_missing_dir_witness :
    (["d".data].all
        (fun d => !(d == (FSPath.mk "e".data "f".data).dir)) = true) ∧
    (exportTo ["d".data] [] (FSPath.mk "e".data "f".data) paddedTable =
        ([], some WriteFailure.writeError) ∧
      (exportTo ["d".data] [] (FSPath.mk "e".data "f".data)
            paddedTable).1.find?
          (fun e => e.1 == FSPath.mk "e".data "f".data) =
        ([] : List (FSPath × List Char)).find?
          (fun e => e.1 == FSPath.mk "e".data "f".data)) :=
  ⟨by rfl,
    tableExporter_missing_dir ["d".data] [] (FSPath.mk "e".data "f".data)
      paddedTable (by rfl)⟩

/-- C7 as stated is false on the code: src/analyze_excel.py performs its
summary operations on the loaded table without passing it through
ColumnNormalizer, so a label with leading whitespace reaches its output
unstripped. -/
theorem analyze_excel_skips_normalizer :
    excelTable paddedTable ≠ normalizeTable paddedTable := by decide

theorem normalized_labels_stripped (t : Table) :
    (normalizeTable t).labels.all (fun l => stripL l == l) = true := by
  rw [List.all_eq_true]
  intro l hl
  obtain ⟨l0, _, rfl⟩ := List.mem_map.mp hl
  simp [stripL_idem]

/-- C7 amended: in analyze_details.py and convert_to_csv.py the Table is
normalized right after loading and before any summary or export operation,
so those scripts operate on whitespace-stripped labels; analyze_excel.py
runs its summaries on the raw loaded Table without normalization. -/
theorem scripts_normalize_before_use (t : Table) :
    detailsTable t = normalizeTable t ∧
    convertTable t = normalizeTable t ∧
    excelTable t = t ∧
    (detailsTable t).labels.all (fun l => stripL l == l) = true ∧
    (convertTable t).labels.all (fun l => stripL l == l) = true :=
  ⟨rfl, rfl, rfl, normalized_labels_stripped t, normalized_labels_stripped t⟩

theorem safe_not_mem (f : List Char) (h : needsQuote f = false) (c : Char)
    (hc : specials.contains c = true) : c ∉ f := by
  intro hcf
  rw [needsQuote, List.any_eq_false] at h
  exact (h c hcf) hc

theorem quoteField_safe (f : List Char) (h : needsQuote f = false) :
    quoteField f = f := by
  rw [quoteField, h]
  simp

theorem map_self_of_all (g : List Char → List Char) (l : List (List Char))
    (h : ∀ f ∈ l, g f = f) : l.map g = l := by
  induction l with
  | nil => rfl
  | cons a as ih =>
      rw [List.map_cons, h a (List.mem_cons_self a as),
        ih (fun f hf => h f (List.mem_cons_of_mem a hf))]

theorem csvLine_safe (fields : List (List Char))
    (h : fields.all (fun f => !(needsQuote f)) = true) :
    csvLine fields = List.intercalate [','] fields := by
  rw [csvLine, map_self_of_all]
  intro f hf
  have hx := (List.all_eq_true.mp h) f hf
  exact quoteField_safe f (by simpa using hx)

theorem not_mem_intercalate (c s : Char) (hcs : c ≠ s)
    (fs : List (List Char)) (hc : ∀ f ∈ fs, c ∉ f) :
    c ∉ List.intercalate [s] fs := by
  induction fs with
  | nil => simp [List.intercalate, List.intersperse]
  | cons f fs ih =>
      cases fs with
      | nil =>
          simpa [List.intercalate, List.intersperse] using hc f (by simp)
      | cons g gs =>
          rw [List.intercalate] at ih ⊢
          rw [List.intersperse_cons_cons, List.flatten_cons, List.flatten_cons]
          intro hmem
          rcases List.mem_append.mp hmem with hf | hmem2
          · exact hc f (by simp) hf
          rcases List.mem_append.mp hmem2 with hs | hrest
          · exact hcs (by simpa using hs)
          · exact ih (fun x hx => hc x (List.mem_cons_of_mem f hx)) hrest

theorem csvLine_no_special (fields : List (List Char))
    (h : fields.all (fun f => !(needsQuote f)) = true) (c : Char)
    (hc : specials.contains c = true) (hcs : c ≠ ',') :
    c ∉ csvLine fields := by
  rw [csvLine_safe fields h]
  apply not_mem_intercalate c ',' hcs
  intro f hf
  have hx := (List.all_eq_true.mp h) f hf
  exact safe_not_mem f (by simpa using hx) c hc

theorem flatten_map_concat (c : Char) (ls : List (List Char)) :
    (ls.map (fun l => l ++ [c])).flatten = List.intercalate [c] (ls ++ [[]]) := by
  induction ls with
  | nil => simp [List.intercalate, List.intersperse]
  | cons a as ih =>
      cases as with
      | nil => simp [List.intercalate, List.intersperse]
      | cons b bs =>
          simp only [List.map_cons, List.flatten_cons] at ih ⊢
          rw [ih]
          simp [List.intercalate, List.cons_append,
            List.intersperse_cons_cons, List.append_assoc]

theorem exportCsv_splitOn (t : Table)
    (hsafeL : t.labels.all (fun f => !(needsQuote f)) = true)
    (hsafeR : t.rows.all
        (fun r => r.all (fun x => !(needsQuote (renderCell x)))) = true) :
    (exportCsv t).splitOn '\n' =
      (csvLine t.labels :: t.rows.map (fun r => csvLine (r.map renderCell)))
        ++ [[]] := by
  rw [exportCsv, flatten_map_concat]
  apply List.splitOn_intercalate
  · intro l hl
    rcases List.mem_append.mp hl with hl | hl
    · rcases List.mem_cons.mp hl with rfl | hl
      · exact csvLine_no_special t.labels hsafeL '\n' (by rfl) (by decide)
      · obtain ⟨r, hr, rfl⟩ := List.mem_map.mp hl
        refine csvLine_no_special (r.map renderCell) ?_ '\n' (by rfl)
          (by decide)
        have hx := (List.all_eq_true.mp hsafeR) r hr
        simpa [List.all_map, Function.comp] using hx
    · have : l = [] := by simpa using hl
      subst this
      simp
  · simp

theorem stripTrailingEmpty_concat (ls : List (List Char)) :
    stripTrailingEmpty (ls ++ [[]]) = ls := by
  rw [stripTrailingEmpty]
  simp [List.getLast?_concat]

theorem splitOn_csvLine (fields : List (List Char))
    (hne : fields ≠ [])
    (hsafe : fields.all (fun f => !(needsQuote f)) = true) :
    (csvLine fields).splitOn ',' = fields := by
  rw [csvLine_safe fields hsafe]
  apply List.splitOn_intercalate
  · intro f hf
    have hx := (List.all_eq_true.mp hsafe) f hf
    exact safe_not_mem f (by simpa using hx) ',' (by rfl)
  · exact hne

/-- C1: exporting a normalized Table and re-loading the written artifact —
lines split at newlines, fields at commas, labels normalized again —
reproduces the column labels exactly and every cell value in its rendered
(lossless) textual form, for every table with at least one column whose
rows are rectangular and whose fields are free of delimiter, quote and
line-break characters. -/
theorem tableExporter_round_trip (t : Table)
    (hne : t.labels ≠ [])
    (hrect : t.rows.all (fun r => r.length == t.labels.length) = true)
    (hnorm : t.labels.all (fun f => stripL f == f) = true)
    (hsafeL : t.labels.all (fun f => !(needsQuote f)) = true)
    (hsafeR : t.rows.all
        (fun r => r.all (fun x => !(needsQuote (renderCell x)))) = true) :
    (parseCsv (exportCsv t)).1.map stripL = t.labels ∧
    (parseCsv (exportCsv t)).2 = t.rows.map (fun r => r.map renderCell) := by
  have hstrip : stripTrailingEmpty ((exportCsv t).splitOn '\n') =
      csvLine t.labels :: t.rows.map (fun r => csvLine (r.map renderCell)) := by
    rw [exportCsv_splitOn t hsafeL hsafeR, stripTrailingEmpty_concat]
  constructor
  · show (((stripTrailingEmpty ((exportCsv t).splitOn '\n')).headD
        []).splitOn ',').map stripL = t.labels
    rw [hstrip, List.headD_cons, splitOn_csvLine t.labels hne hsafeL]
    apply map_self_of_all
    intro f hf
    have hx := (List.all_eq_true.mp hnorm) f hf
    simpa using hx
  · show ((stripTrailingEmpty ((exportCsv t).splitOn '\n')).tail).map
        (fun r => r.splitOn ',') = t.rows.map (fun r => r.map renderCell)
    rw [hstrip, List.tail_cons, List.map_map]
    apply List.map_congr_left
    intro r hr
    have hsafeRow : (r.map renderCell).all (fun f => !(needsQuote f)) = true := by
      have hx := (List.all_eq_true.mp hsafeR) r hr
      simpa [List.all_map, Function.comp] using hx
    have hrne : r.map renderCell ≠ [] := by
      have hlen := (List.all_eq_true.mp hrect) r hr
      simp only [beq_iff_eq] at hlen
      intro hnil
      rw [List.map_eq_nil_iff] at hnil
      rw [hnil] at hlen
      exact hne (List.length_eq_zero.mp hlen.symm)
    exact splitOn_csvLine (r.map renderCell) hrne hsafeRow

theorem tableExporter_round_trip_witness :
    (witTable.labels ≠ []) ∧
    ((parseCsv (exportCsv witTable)).1.map stripL = witTable.labels ∧
      (parseCsv (exportCsv witTable)).2 =
        witTable.rows.map (fun r => r.map renderCell)) :=
  ⟨by decide,
    tableExporter_round_trip witTable (by decide) (by decide) (by decide)
      (by decide) (by decide)⟩

/-- C8: the export artifact is a comma-delimited text file whose lines are
exactly the header line of the ordered column labels followed by one line
per table row in order (each line newline-terminated, the final newline
contributing only the trailing empty split); the header's comma-separated
fields are exactly the labels; and every data line carries exactly one field
per column — no row-position column is present. -/
theorem tableExporter_artifact_format (t : Table)
    (hne : t.labels ≠ [])
    (hrect : t.rows.all (fun r => r.length == t.labels.length) = true)
    (hsafeL : t.labels.all (fun f => !(needsQuote f)) = true)
    (hsafeR : t.rows.all
        (fun r => r.all (fun x => !(needsQuote (renderCell x)))) = true) :
    (exportCsv t).splitOn '\n' =
      (csvLine t.labels :: t.rows.map (fun r => csvLine (r.map renderCell)))
        ++ [[]] ∧
    (csvLine t.labels).splitOn ',' = t.labels ∧
    ∀ r ∈ t.rows,
      ((csvLine (r.map renderCell)).splitOn ',').length = t.labels.length := by
  refine ⟨exportCsv_splitOn t hsafeL hsafeR,
    splitOn_csvLine t.labels hne hsafeL, ?_⟩
  intro r hr
  have hsafeRow : (r.map renderCell).all (fun f => !(needsQuote f)) = true := by
    have hx := (List.all_eq_true.mp hsafeR) r hr
    simpa [List.all_map, Function.comp] using hx
  have hlen := (List.all_eq_true.mp hrect) r hr
  simp only [beq_iff_eq] at hlen
  have hrne : r.map renderCell ≠ [] := by
    intro hnil
    rw [List.map_eq_nil_iff] at hnil
    rw [hnil] at hlen
    exact hne (List.length_eq_zero.mp hlen.symm)
  rw [splitOn_csvLine (r.map renderCell) hrne hsafeRow, List.length_map]
  exact hlen

theorem tableExporter_artifact_format_witness :
    (witTable.labels ≠ []) ∧
    ((exportCsv witTable).splitOn '\n' =
        (csvLine witTable.labels ::
          witTable.rows.map (fun r => csvLine (r.map renderCell))) ++ [[]] ∧
      (csvLine witTable.labels).splitOn ',' = witTable.labels ∧
      ∀ r ∈ witTable.rows,
        ((csvLine (r.map renderCell)).splitOn ',').length =
          witTable.labels.length) :=
  ⟨by decide,
    tableExporter_artifact_format witTable (by decide) (by decide)
      (by decide) (by decide)⟩

end IEX
